import Mathlib

/-!
Shallow embedding of the ETS-SO process monitor (crates `sys_probe` and
`ets`) for checking its natural-language specification.

Text (Rust `String` / `str`) is modelled as a list of Unicode code points
(`List Nat`); machine integers (`u32`, `u64`, `i16`, `u16`) are modelled as
`Nat` / `Int` with the explicit range checks the Rust parsing functions
perform.  Fallible operations (`fs::read_to_string`, slice indexing that can
panic) are modelled with `Option` / `Except`.  `String::to_lowercase` and
`char::is_whitespace` are modelled by their ASCII behaviour, which is the
behaviour exercised by the `/proc` accounting format and by the filter
(the spec itself notes the transform is "ASCII-oriented").
-/

/-- ASCII whitespace predicate modelling `char::is_whitespace` on the
characters that occur in `/proc` accounting text. -/
def isWs (c : Nat) : Bool :=
  c == 32 || c == 9 || c == 10 || c == 11 || c == 12 || c == 13

/-- Accumulating worker for `splitWs`; `acc` holds the current token
reversed. -/
def splitWsAux : List Nat → List Nat → List (List Nat)
  | [], acc => if acc.isEmpty then [] else [acc.reverse]
  | c :: cs, acc =>
    if isWs c then
      if acc.isEmpty then splitWsAux cs []
      else acc.reverse :: splitWsAux cs []
    else splitWsAux cs (c :: acc)

/-- Model of `str::split_whitespace` (collecting the pieces): splits a text
into maximal runs of non-whitespace characters. -/
def splitWs (s : List Nat) : List (List Nat) := splitWsAux s []

/-- Helper to build a raw text from a token list, separating tokens by a
single blank (used only to state concrete evaluations). -/
def mkRaw (toks : List (List Nat)) : List Nat := (toks.intersperse [32]).flatten

/-- ASCII decimal digit test. -/
def isDigitCh (c : Nat) : Bool := 48 ≤ c && c ≤ 57

/-- Value of a digit string (callers check `isDigitCh` first). -/
def digitsToNat (l : List Nat) : Nat := l.foldl (fun a c => a * 10 + (c - 48)) 0

/-- Parse a nonempty all-digit token to a natural number, as the digit loop
of Rust `from_str_radix` does. -/
def parseNatTok (l : List Nat) : Option Nat :=
  if l ≠ [] ∧ l.all isDigitCh then some (digitsToNat l) else none

/-- Signed decimal parse: optional `+`/`-` sign followed by digits,
modelling Rust integer `from_str`. -/
def parseIntTok (l : List Nat) : Option Int :=
  match l with
  | 45 :: rest => (parseNatTok rest).map (fun n => -(n : Int))
  | 43 :: rest => (parseNatTok rest).map (fun n => (n : Int))
  | _ => (parseNatTok l).map (fun n => (n : Int))

/-- Model of `str::parse::<i16>`: signed decimal parse plus the `i16` range
check. -/
def parseI16 (l : List Nat) : Option Int :=
  (parseIntTok l).bind (fun v => if -32768 ≤ v ∧ v ≤ 32767 then some v else none)

/-- Model of `str::parse::<u16>`: unsigned decimal parse (optional leading
`+`) plus the `u16` range check. -/
def parseU16 (l : List Nat) : Option Nat :=
  match l with
  | 43 :: rest => (parseNatTok rest).bind (fun n => if n ≤ 65535 then some n else none)
  | _ => (parseNatTok l).bind (fun n => if n ≤ 65535 then some n else none)

/-- ASCII lowercasing of one code point, modelling the per-character effect
of `String::to_lowercase` on ASCII text. -/
def toLowerCh (c : Nat) : Nat := if 65 ≤ c ∧ c ≤ 90 then c + 32 else c

/-- `isPrefixTok ns hs` is true when `ns` is an initial segment of `hs`. -/
def isPrefixTok : List Nat → List Nat → Bool
  | [], _ => true
  | _ :: _, [] => false
  | a :: as, b :: bs => a == b && isPrefixTok as bs

/-- Model of `str::contains` for plain (non-pattern) needles: `ns` occurs
contiguously somewhere in `hs`. -/
def containsTok (hs ns : List Nat) : Bool :=
  match hs with
  | [] => ns.isEmpty
  | _ :: t => isPrefixTok ns hs || containsTok t ns

/-- Worker for `natRepr`: fuel-bounded decimal digit emission, fuel `n + 1`
always suffices. -/
def natReprAux : Nat → Nat → List Nat
  | 0, _ => []
  | fuel + 1, n => if n < 10 then [48 + n] else natReprAux fuel (n / 10) ++ [48 + n % 10]

/-- Decimal representation of a natural number as code points, modelling
`u32::to_string`. -/
def natRepr (n : Nat) : List Nat := natReprAux (n + 1) n

/-- Model of `sysinfo::ProcessStatus` restricted to the variants the code
distinguishes (everything but `Dead`/`Zombie` is treated uniformly). -/
inductive ProcessStatus
  | Run
  | Sleep
  | Idle
  | Stop
  | Zombie
  | Dead
  | Unknown
deriving DecidableEq, Repr

/-- Model of `sys_probe::Process`: provider-sourced fields plus the three
lazily resolved scheduling fields and the cached token vector `stat`. -/
structure Process where
  name : List Nat
  pid : Nat
  run_time : Nat
  ram : Nat
  nice : Option Int
  status : Option ProcessStatus
  priority : Option Int
  rt_priority : Option Nat
  stat : List (List Nat)
deriving DecidableEq, Repr

def NICE_COL : Nat := 18
def PRIO_COL : Nat := 17
def RT_PRIO_COL : Nat := 39

/-- Model of `Process::read_stat`: `raw` is the result of
`fs::read_to_string("/proc/<pid>/stat")` (`none` = read error); on success
the token vector is replaced, on failure the record is left as it was. -/
def Process.read_stat (raw : Option (List Nat)) (p : Process) : Process :=
  match raw with
  | some s => { p with stat := splitWs s }
  | none => p

/-- The `priority` arm of `Process::refresh`: guarded by `is_none`, indexes
`stat[PRIO_COL]` (a panic — `Except.error` — when out of bounds) and absorbs
a parse failure to `0` via `unwrap_or(0)`. -/
def fillPriority (p : Process) : Except Unit Process :=
  if p.priority.isSome then Except.ok p
  else
    match p.stat[PRIO_COL]? with
    | some t => Except.ok { p with priority := some ((parseI16 t).getD 0) }
    | none => Except.error ()

/-- The `rt_priority` arm of `Process::refresh` (indexes `RT_PRIO_COL`). -/
def fillRtPriority (p : Process) : Except Unit Process :=
  if p.rt_priority.isSome then Except.ok p
  else
    match p.stat[RT_PRIO_COL]? with
    | some t => Except.ok { p with rt_priority := some ((parseU16 t).getD 0) }
    | none => Except.error ()

/-- The `nice` arm of `Process::refresh` (indexes `NICE_COL`). -/
def fillNice (p : Process) : Except Unit Process :=
  if p.nice.isSome then Except.ok p
  else
    match p.stat[NICE_COL]? with
    | some t => Except.ok { p with nice := some ((parseI16 t).getD 0) }
    | none => Except.error ()

/-- Body of `Process::refresh` after `read_stat`: the `stat.len() > 15`
guard, then the three fill arms in source order (priority, rt_priority,
nice), any indexing panic propagating out. -/
def Process.refreshStat (p : Process) : Except Unit Process :=
  if 15 < p.stat.length then
    (fillPriority p).bind (fun p1 => (fillRtPriority p1).bind fillNice)
  else Except.ok p

/-- Model of `Process::refresh`, parameterised by the outcome `raw` of the
accounting-text read for this cycle. -/
def Process.refresh (raw : Option (List Nat)) (p : Process) : Except Unit Process :=
  (p.read_stat raw).refreshStat

/-- Invariant satisfied by every record the crate can actually build: a
cached token vector long enough to pass the guard implies all three
scheduling fields are already resolved (a fresh builder record has an empty
`stat`, and a successful guarded refresh fills all three). -/
def statInv (p : Process) : Prop :=
  15 < p.stat.length →
    (p.nice.isSome = true ∧ p.priority.isSome = true ∧ p.rt_priority.isSome = true)

/-- Model of `ProcessBuilder` as used at the single call site in
`SysProbe::refresh_processes`: the four required fields plus the status,
scheduling fields unresolved, empty token vector. -/
def buildProcess (name : List Nat) (pid run_time ram : Nat) (status : ProcessStatus) : Process :=
  { name := name
    pid := pid
    run_time := run_time
    ram := ram
    nice := none
    status := some status
    priority := none
    rt_priority := none
    stat := [] }

/-- One entry of the provider snapshot returned by `sysinfo`'s bulk refresh:
what `SysProbe::refresh_processes` reads off each `sysinfo::Process`. -/
structure ProvProc where
  pid : Nat
  name : List Nat
  run_time : Nat
  ram : Nat
  status : ProcessStatus
deriving DecidableEq, Repr

/-- The `Dead | Zombie` match arm of `SysProbe::refresh_processes`. -/
def isTerminal (s : ProcessStatus) : Bool :=
  s = ProcessStatus.Dead || s = ProcessStatus.Zombie

/-- Body of the per-pid loop of `SysProbe::refresh_processes`: terminal
status removes the pid; otherwise a fresh record is built, refreshed once
(an indexing panic propagates) and inserted, overwriting any previous
entry. -/
def stepProc (reads : Nat → Option (List Nat)) (tbl : Nat → Option Process) (e : ProvProc) :
    Except Unit (Nat → Option Process) :=
  if isTerminal e.status then
    Except.ok (fun q => if q = e.pid then none else tbl q)
  else
    match Process.refresh (reads e.pid) (buildProcess e.name e.pid e.run_time e.ram e.status) with
    | Except.ok pr => Except.ok (fun q => if q = e.pid then some pr else tbl q)
    | Except.error u => Except.error u

/-- Model of `SysProbe::refresh_processes`: `snapshot` is the provider's
live list, `reads` the per-pid accounting-text reads of this cycle, `tbl`
the `HashMap<u32, Process>` (as a function).  First the `retain` over the
live pid set, then the per-pid loop. -/
def refresh_processes (snapshot : List ProvProc) (reads : Nat → Option (List Nat))
    (tbl : Nat → Option Process) : Except Unit (Nat → Option Process) :=
  List.foldlM (stepProc reads)
    (fun q => if q ∈ snapshot.map (fun e => e.pid) then tbl q else none) snapshot

/-- Model of `ets::App`: the probe's table (`sys`), the sorted item list,
the derived displayed list, the filter text and the table-widget selection
index. -/
structure App where
  sys : Nat → Option Process
  items : List Process
  filtered : List Process
  filter : List Nat
  tableSelected : Option Nat

/-- Model of `App::apply_filter`: empty filter clones `items`; otherwise the
filter text is lowercased once and a record is kept when its lowercased name
or its decimal pid representation contains that text. -/
def App.apply_filter (a : App) : App :=
  if a.filter = [] then { a with filtered := a.items }
  else
    { a with
      filtered :=
        a.items.filter (fun p =>
          containsTok (p.name.map toLowerCh) (a.filter.map toLowerCh) ||
            containsTok (natRepr p.pid) (a.filter.map toLowerCh)) }

/-- Model of `App::next_row` (`KeyCode::Down`): wraps using
`items.len().saturating_sub(1)`; with no current selection, selects `0`. -/
def App.next_row (a : App) : App :=
  let i :=
    match a.tableSelected with
    | some i => if a.items.length - 1 ≤ i then 0 else i + 1
    | none => 0
  { a with tableSelected := some i }

/-- Model of `App::previous_row` (`KeyCode::Up`). -/
def App.previous_row (a : App) : App :=
  let i :=
    match a.tableSelected with
    | some i => if i = 0 then a.items.length - 1 else i - 1
    | none => 0
  { a with tableSelected := some i }

/-- The filter predicate exactly as the spec words it: the name contains the
filter text case-insensitively, or the decimal pid representation contains
the filter text as a substring. -/
def specKeep (filter : List Nat) (p : Process) : Prop :=
  containsTok (p.name.map toLowerCh) (filter.map toLowerCh) = true ∨
    containsTok (natRepr p.pid) filter = true

/-- A process record named "ab" with pid 1 (concrete test data). -/
def procAB : Process :=
  ⟨[97, 98], 1, 0, 0, none, some ProcessStatus.Run, none, none, []⟩

/-- A process record named "cd" with pid 2 (concrete test data). -/
def procCD : Process :=
  ⟨[99, 100], 2, 1, 0, none, some ProcessStatus.Run, none, none, []⟩

/-- A session state whose filter "a" keeps one of two items, with the first
displayed row selected. -/
def c4app : App := ⟨fun _ => none, [procAB, procCD], [procAB], [97], some 0⟩

/-- A session state with nothing displayed and no selection. -/
def c10app : App := ⟨fun _ => none, [], [], [], none⟩

/-- A session state with an empty filter and items sorted by run_time. -/
def c7app : App := ⟨fun _ => none, [procAB, procCD], [], [], none⟩

theorem isPrefixTok_subset {ns hs : List Nat} (h : isPrefixTok ns hs = true) :
    ∀ c ∈ ns, c ∈ hs := by
  induction ns generalizing hs with
  | nil => intro c hc; cases hc
  | cons a as ih =>
    cases hs with
    | nil => simp [isPrefixTok] at h
    | cons b bs =>
      simp only [isPrefixTok, Bool.and_eq_true, beq_iff_eq] at h
      obtain ⟨rfl, h2⟩ := h
      intro c hc
      rcases List.mem_cons.mp hc with rfl | hc
      · exact List.mem_cons_self _ _
      · exact List.mem_cons_of_mem _ (ih h2 c hc)

theorem containsTok_subset {hs ns : List Nat} (h : containsTok hs ns = true) :
    ∀ c ∈ ns, c ∈ hs := by
  induction hs with
  | nil =>
    simp only [containsTok, List.isEmpty_iff] at h
    subst h
    intro c hc
    cases hc
  | cons b bs ih =>
    simp only [containsTok, Bool.or_eq_true] at h
    rcases h with h | h
    · exact isPrefixTok_subset h
    · intro c hc
      exact List.mem_cons_of_mem _ (ih h c hc)

theorem containsTok_nil (hs : List Nat) : containsTok hs [] = true := by
  cases hs <;> simp [containsTok, isPrefixTok]

theorem map_self_of_eq {f : Nat → Nat} {l : List Nat} (h : ∀ c ∈ l, f c = c) :
    l.map f = l := by
  induction l with
  | nil => rfl
  | cons a as ih =>
    simp only [List.map_cons, h a (List.mem_cons_self a as),
      ih (fun c hc => h c (List.mem_cons_of_mem a hc))]

theorem natReprAux_digits (fuel : Nat) :
    ∀ n, ∀ c ∈ natReprAux fuel n, 48 ≤ c ∧ c ≤ 57 := by
  induction fuel with
  | zero => intro n c hc; simp [natReprAux] at hc
  | succ f ih =>
    intro n c hc
    simp only [natReprAux] at hc
    by_cases h : n < 10
    · rw [if_pos h] at hc
      simp only [List.mem_singleton] at hc
      subst hc
      omega
    · rw [if_neg h] at hc
      rcases List.mem_append.mp hc with hc | hc
      · exact ih _ c hc
      · simp only [List.mem_singleton] at hc
        subst hc
        have : n % 10 < 10 := Nat.mod_lt _ (by norm_num)
        omega

theorem natRepr_digits (n : Nat) : ∀ c ∈ natRepr n, 48 ≤ c ∧ c ≤ 57 :=
  natReprAux_digits (n + 1) n

theorem containsTok_digits_map_toLower {hs ns : List Nat}
    (hd : ∀ c ∈ hs, 48 ≤ c ∧ c ≤ 57) :
    containsTok hs (ns.map toLowerCh) = containsTok hs ns := by
  by_cases hfix : ∀ c ∈ ns, toLowerCh c = c
  · rw [map_self_of_eq hfix]
  · push_neg at hfix
    obtain ⟨c, hc, hne⟩ := hfix
    have hup : 65 ≤ c ∧ c ≤ 90 := by
      by_contra hcon
      exact hne (by unfold toLowerCh; rw [if_neg hcon])
    have hlow : toLowerCh c = c + 32 := by
      unfold toLowerCh; rw [if_pos hup]
    have h1 : containsTok hs ns = false := by
      rcases Bool.eq_false_or_eq_true (containsTok hs ns) with h | h
      · have h3 := hd c (containsTok_subset h c hc)
        omega
      · exact h
    have h2 : containsTok hs (ns.map toLowerCh) = false := by
      rcases Bool.eq_false_or_eq_true (containsTok hs (ns.map toLowerCh)) with h | h
      · have hmem : toLowerCh c ∈ ns.map toLowerCh := List.mem_map_of_mem _ hc
        have h3 := hd _ (containsTok_subset h _ hmem)
        omega
      · exact h
    rw [h1, h2]

/-- Claim C6: a record passes the filter iff its name contains the filter
text case-insensitively or the decimal pid representation contains the
filter text; in particular filter "12" matches pids 12 and 123 but not 7. -/
theorem C6_filter_iff :
    (∀ (a : App) (p : Process),
        p ∈ (App.apply_filter a).filtered ↔ p ∈ a.items ∧ specKeep a.filter p) ∧
      containsTok (natRepr 12) [49, 50] = true ∧
      containsTok (natRepr 123) [49, 50] = true ∧
      containsTok (natRepr 7) [49, 50] = false := by
  refine ⟨?_, by decide, by decide, by decide⟩
  intro a p
  unfold App.apply_filter
  by_cases hf : a.filter = []
  · rw [if_pos hf]
    simp [specKeep, hf, containsTok_nil]
  · rw [if_neg hf]
    simp only [List.mem_filter, Bool.or_eq_true,
      containsTok_digits_map_toLower (natRepr_digits p.pid), specKeep]

/-- Claim C9: applying the filter never mutates the probe's table, the
sorted item list, or the filter text itself — it only rewrites the derived
displayed list. -/
theorem C9_filter_frame (a : App) :
    (App.apply_filter a).items = a.items ∧ (App.apply_filter a).sys = a.sys ∧
      (App.apply_filter a).filter = a.filter := by
  unfold App.apply_filter
  by_cases hf : a.filter = [] <;> simp [hf]

/-- Claim C7: with an empty filter, the displayed list is the sorted item
list itself, unchanged in length and order. -/
theorem C7_empty_filter_identity (a : App) (h1 : a.filter = [])
    (h2 : List.Sorted (fun p q : Process => p.run_time ≤ q.run_time) a.items) :
    (App.apply_filter a).filtered = a.items := by
  unfold App.apply_filter
  rw [if_pos h1]

/-- Witness for C7 at a concrete sorted two-item state. -/
theorem C7_empty_filter_identity_witness :
    c7app.filter = [] ∧ (App.apply_filter c7app).filtered = c7app.items :=
  ⟨rfl, C7_empty_filter_identity c7app rfl (by decide)⟩

/-- Counterexample to claim C4 as stated: with two items of which the
filter displays exactly one (so N = 1 and the selection sits at displayed
index N − 1 = 0), moving down yields index 1, not 0 — the wrap uses the
full item list's length, not the displayed sequence's. -/
theorem C4_wrap_counterexample :
    (App.apply_filter c4app).filtered = [procAB] ∧
      c4app.filtered = [procAB] ∧
      c4app.filtered.length = 1 ∧
      c4app.tableSelected = some 0 ∧
      (App.next_row c4app).tableSelected = some 1 ∧
      ¬(App.next_row c4app).tableSelected = some 0 :=
  ⟨by decide, by decide, by decide, by decide, by decide, by decide⟩

/-- Claim C4 amended: the selection wraps at the bounds of the full sorted
item list (not the displayed/filtered sequence): with N = items.length > 0,
moving down from N − 1 yields 0 and moving up from 0 yields N − 1. -/
theorem C4_wrap_items_amended (a : App) (h0 : 0 < a.items.length) :
    (a.tableSelected = some (a.items.length - 1) →
        (App.next_row a).tableSelected = some 0) ∧
      (a.tableSelected = some 0 →
        (App.previous_row a).tableSelected = some (a.items.length - 1)) := by
  constructor
  · intro h
    unfold App.next_row
    rw [h]
    simp
  · intro h
    unfold App.previous_row
    rw [h]
    simp

/-- Witness for the amended C4 at a concrete two-item state. -/
theorem C4_wrap_items_amended_witness :
    0 < c4app.items.length ∧
      ((c4app.tableSelected = some (c4app.items.length - 1) →
          (App.next_row c4app).tableSelected = some 0) ∧
        (c4app.tableSelected = some 0 →
          (App.previous_row c4app).tableSelected = some (c4app.items.length - 1))) :=
  ⟨by decide, C4_wrap_items_amended c4app (by decide)⟩

/-- Claim C10: with no current selection, Down and Up both select index 0,
regardless of the displayed sequence (including when it is empty). -/
theorem C10_none_selects_zero (a : App) (h : a.tableSelected = none) :
    (App.next_row a).tableSelected = some 0 ∧
      (App.previous_row a).tableSelected = some 0 := by
  unfold App.next_row App.previous_row
  rw [h]
  exact ⟨rfl, rfl⟩

/-- Witness for C10 at a state with an empty displayed sequence. -/
theorem C10_none_selects_zero_witness :
    c10app.tableSelected = none ∧ c10app.filtered = [] ∧
      ((App.next_row c10app).tableSelected = some 0 ∧
        (App.previous_row c10app).tableSelected = some 0) :=
  ⟨rfl, rfl, C10_none_selects_zero c10app rfl⟩

theorem exceptBind_ok {α β : Type} (a : α) (f : α → Except Unit β) :
    (Except.ok a : Except Unit α).bind f = f a := rfl

theorem exceptBind_error {α β : Type} (e : Unit) (f : α → Except Unit β) :
    (Except.error e : Except Unit α).bind f = Except.error e := rfl

theorem exceptMap_ok {α β : Type} (a : α) (f : α → β) :
    (Except.ok a : Except Unit α).map f = Except.ok (f a) := rfl

theorem read_stat_fields (raw : Option (List Nat)) (p : Process) :
    (p.read_stat raw).nice = p.nice ∧ (p.read_stat raw).priority = p.priority ∧
      (p.read_stat raw).rt_priority = p.rt_priority := by
  cases raw <;> simp [Process.read_stat]

theorem fillPriority_ok {p q : Process} (h : fillPriority p = Except.ok q) :
    q.priority = (if p.priority.isSome then p.priority
        else some ((parseI16 (p.stat[PRIO_COL]?.getD [])).getD 0)) ∧
      q.nice = p.nice ∧ q.rt_priority = p.rt_priority ∧ q.stat = p.stat := by
  unfold fillPriority at h
  by_cases hs : p.priority.isSome
  · rw [if_pos hs] at h
    injection h with h
    subst h
    simp [hs]
  · rw [if_neg hs] at h
    cases ht : p.stat[PRIO_COL]? with
    | none => rw [ht] at h; exact Except.noConfusion h
    | some t =>
      rw [ht] at h
      injection h with h
      subst h
      simp [hs, ht]

theorem fillRtPriority_ok {p q : Process} (h : fillRtPriority p = Except.ok q) :
    q.rt_priority = (if p.rt_priority.isSome then p.rt_priority
        else some ((parseU16 (p.stat[RT_PRIO_COL]?.getD [])).getD 0)) ∧
      q.nice = p.nice ∧ q.priority = p.priority ∧ q.stat = p.stat := by
  unfold fillRtPriority at h
  by_cases hs : p.rt_priority.isSome
  · rw [if_pos hs] at h
    injection h with h
    subst h
    simp [hs]
  · rw [if_neg hs] at h
    cases ht : p.stat[RT_PRIO_COL]? with
    | none => rw [ht] at h; exact Except.noConfusion h
    | some t =>
      rw [ht] at h
      injection h with h
      subst h
      simp [hs, ht]

theorem fillNice_ok {p q : Process} (h : fillNice p = Except.ok q) :
    q.nice = (if p.nice.isSome then p.nice
        else some ((parseI16 (p.stat[NICE_COL]?.getD [])).getD 0)) ∧
      q.priority = p.priority ∧ q.rt_priority = p.rt_priority ∧ q.stat = p.stat := by
  unfold fillNice at h
  by_cases hs : p.nice.isSome
  · rw [if_pos hs] at h
    injection h with h
    subst h
    simp [hs]
  · rw [if_neg hs] at h
    cases ht : p.stat[NICE_COL]? with
    | none => rw [ht] at h; exact Except.noConfusion h
    | some t =>
      rw [ht] at h
      injection h with h
      subst h
      simp [hs, ht]

theorem fillPriority_of_isSome {p : Process} (h : p.priority.isSome = true) :
    fillPriority p = Except.ok p := by
  unfold fillPriority
  rw [if_pos h]

theorem fillRtPriority_of_isSome {p : Process} (h : p.rt_priority.isSome = true) :
    fillRtPriority p = Except.ok p := by
  unfold fillRtPriority
  rw [if_pos h]

theorem fillNice_of_isSome {p : Process} (h : p.nice.isSome = true) :
    fillNice p = Except.ok p := by
  unfold fillNice
  rw [if_pos h]

theorem fillPriority_total {p : Process} (h : PRIO_COL < p.stat.length) :
    ∃ q, fillPriority p = Except.ok q := by
  unfold fillPriority
  by_cases hs : p.priority.isSome
  · exact ⟨p, by rw [if_pos hs]⟩
  · rw [if_neg hs, List.getElem?_eq_getElem h]
    exact ⟨_, rfl⟩

theorem fillRtPriority_total {p : Process} (h : RT_PRIO_COL < p.stat.length) :
    ∃ q, fillRtPriority p = Except.ok q := by
  unfold fillRtPriority
  by_cases hs : p.rt_priority.isSome
  · exact ⟨p, by rw [if_pos hs]⟩
  · rw [if_neg hs, List.getElem?_eq_getElem h]
    exact ⟨_, rfl⟩

theorem fillNice_total {p : Process} (h : NICE_COL < p.stat.length) :
    ∃ q, fillNice p = Except.ok q := by
  unfold fillNice
  by_cases hs : p.nice.isSome
  · exact ⟨p, by rw [if_pos hs]⟩
  · rw [if_neg hs, List.getElem?_eq_getElem h]
    exact ⟨_, rfl⟩

/-- Claim C5: a single record's refresh keeps every already-resolved
(`Some`) scheduling field exactly as it was and, for any record the crate
can build (`statInv`), an unreadable accounting source leaves the record
entirely unchanged for that cycle. -/
theorem C5_merge_rule (raw : Option (List Nat)) (p q : Process)
    (hq : Process.refresh raw p = Except.ok q) :
    (p.nice.isSome = true → q.nice = p.nice) ∧
      (p.priority.isSome = true → q.priority = p.priority) ∧
      (p.rt_priority.isSome = true → q.rt_priority = p.rt_priority) ∧
      (raw = none → statInv p → q = p) := by
  obtain ⟨rn, rp, rr⟩ := read_stat_fields raw p
  unfold Process.refresh Process.refreshStat at hq
  by_cases hlen : 15 < (p.read_stat raw).stat.length
  · rw [if_pos hlen] at hq
    cases h1 : fillPriority (p.read_stat raw) with
    | error e =>
      rw [h1, exceptBind_error] at hq
      exact Except.noConfusion hq
    | ok p1 =>
      rw [h1] at hq
      simp only [exceptBind_ok] at hq
      cases h2 : fillRtPriority p1 with
      | error e =>
        rw [h2, exceptBind_error] at hq
        exact Except.noConfusion hq
      | ok p2 =>
        rw [h2] at hq
        simp only [exceptBind_ok] at hq
        obtain ⟨f1p, f1n, f1r, f1s⟩ := fillPriority_ok h1
        obtain ⟨f2r, f2n, f2p, f2s⟩ := fillRtPriority_ok h2
        obtain ⟨f3n, f3p, f3r, f3s⟩ := fillNice_ok hq
        refine ⟨?_, ?_, ?_, ?_⟩
        · intro hs
          have hp2 : p2.nice = p.nice := by rw [f2n, f1n, rn]
          rw [f3n, hp2, if_pos hs]
        · intro hs
          have hp1 : p1.priority = p.priority := by rw [f1p, rp, if_pos hs]
          rw [f3p, f2p, hp1]
        · intro hs
          have hp2 : p2.rt_priority = p.rt_priority := by rw [f2r, f1r, rr, if_pos hs]
          rw [f3r, hp2]
        · intro hraw hinv
          subst hraw
          have hrs : p.read_stat none = p := rfl
          rw [hrs] at hlen h1
          obtain ⟨inn, ipp, irr⟩ := hinv hlen
          rw [fillPriority_of_isSome ipp] at h1
          injection h1 with h1
          subst h1
          rw [fillRtPriority_of_isSome irr] at h2
          injection h2 with h2
          subst h2
          rw [fillNice_of_isSome inn] at hq
          injection hq with hq
          exact hq.symm
  · rw [if_neg hlen] at hq
    injection hq with hq
    subst hq
    exact ⟨fun _ => rn, fun _ => rp, fun _ => rr, fun hraw _ => by subst hraw; rfl⟩

/-- A record with all three scheduling fields resolved and no cached
accounting tokens, as produced by a guarded successful refresh cycle. -/
def c5p : Process :=
  ⟨[97], 1, 0, 0, some 5, some ProcessStatus.Run, some 3, some 0, []⟩

/-- Witness for C5: `refresh` on `c5p` with an unreadable source succeeds
and changes nothing. -/
theorem C5_merge_rule_witness :
    Process.refresh none c5p = Except.ok c5p ∧
      ((c5p.nice.isSome = true → c5p.nice = c5p.nice) ∧
        (c5p.priority.isSome = true → c5p.priority = c5p.priority) ∧
        (c5p.rt_priority.isSome = true → c5p.rt_priority = c5p.rt_priority) ∧
        ((none : Option (List Nat)) = none → statInv c5p → c5p = c5p)) :=
  ⟨rfl, C5_merge_rule none c5p c5p rfl⟩

/-- Claim C8: with all fixed columns in bounds (at least 40 tokens), the
refresh never faults, and each still-unresolved field independently receives
its own token's parse result with a parse failure absorbed to 0. -/
theorem C8_parse_default (raw : List Nat) (p : Process)
    (h : 40 ≤ (splitWs raw).length) :
    (Process.refresh (some raw) p).map Process.priority =
        Except.ok (if p.priority.isSome then p.priority
          else some ((parseI16 ((splitWs raw)[PRIO_COL]?.getD [])).getD 0)) ∧
      (Process.refresh (some raw) p).map Process.rt_priority =
        Except.ok (if p.rt_priority.isSome then p.rt_priority
          else some ((parseU16 ((splitWs raw)[RT_PRIO_COL]?.getD [])).getD 0)) ∧
      (Process.refresh (some raw) p).map Process.nice =
        Except.ok (if p.nice.isSome then p.nice
          else some ((parseI16 ((splitWs raw)[NICE_COL]?.getD [])).getD 0)) := by
  obtain ⟨rn, rp, rr⟩ := read_stat_fields (some raw) p
  have hst : (p.read_stat (some raw)).stat = splitWs raw := rfl
  obtain ⟨p1, h1⟩ := fillPriority_total (p := p.read_stat (some raw))
    (by rw [hst]; unfold PRIO_COL; omega)
  obtain ⟨f1p, f1n, f1r, f1s⟩ := fillPriority_ok h1
  obtain ⟨p2, h2⟩ := fillRtPriority_total (p := p1)
    (by rw [f1s, hst]; unfold RT_PRIO_COL; omega)
  obtain ⟨f2r, f2n, f2p, f2s⟩ := fillRtPriority_ok h2
  obtain ⟨q, h3⟩ := fillNice_total (p := p2)
    (by rw [f2s, f1s, hst]; unfold NICE_COL; omega)
  obtain ⟨f3n, f3p, f3r, f3s⟩ := fillNice_ok h3
  have hrun : Process.refresh (some raw) p = Except.ok q := by
    unfold Process.refresh Process.refreshStat
    rw [if_pos (by rw [hst]; omega)]
    simp only [h1, h2, h3, exceptBind_ok]
  rw [hrun]
  simp only [exceptMap_ok]
  refine ⟨?_, ?_, ?_⟩
  · rw [f3p, f2p, f1p, rp, hst]
  · rw [f3r, f2r, f1r, rr, f1s, hst]
  · rw [f3n, f2n, f1n, rn, f2s, f1s, hst]

/-- Accounting text of 40 tokens: tokens 0–16 are "7", token 17 (priority)
is "20", token 18 (nice) is the unparsable "xx", token 39 (rt_priority) is
"1", the rest "7". -/
def c8raw : List Nat :=
  mkRaw (List.replicate 17 [55] ++ [[50, 48], [120, 120]] ++
    List.replicate 20 [55] ++ [[49]])

/-- A fresh builder record (all scheduling fields unresolved). -/
def c8p : Process := buildProcess [] 1 0 0 ProcessStatus.Run

/-- Witness for C8: on `c8raw` the unparsable nice token is absorbed to 0
while priority parses to 20 and rt_priority to 1, with no fault. -/
theorem C8_parse_default_witness :
    40 ≤ (splitWs c8raw).length ∧
      ((Process.refresh (some c8raw) c8p).map Process.priority =
          Except.ok (if c8p.priority.isSome then c8p.priority
            else some ((parseI16 ((splitWs c8raw)[PRIO_COL]?.getD [])).getD 0)) ∧
        (Process.refresh (some c8raw) c8p).map Process.rt_priority =
          Except.ok (if c8p.rt_priority.isSome then c8p.rt_priority
            else some ((parseU16 ((splitWs c8raw)[RT_PRIO_COL]?.getD [])).getD 0)) ∧
        (Process.refresh (some c8raw) c8p).map Process.nice =
          Except.ok (if c8p.nice.isSome then c8p.nice
            else some ((parseI16 ((splitWs c8raw)[NICE_COL]?.getD [])).getD 0))) :=
  ⟨by decide, C8_parse_default c8raw c8p (by decide)⟩

/-- Accounting text of exactly 16 one-character tokens: it passes the
`len > 15` guard yet has no token at column 17. -/
def c1raw : List Nat := mkRaw (List.replicate 16 [97])

/-- Claim C1, failing part: a 16-token accounting text passes the guard and
the priority extraction then indexes past the token vector — the refresh
faults (an index-out-of-bounds panic in the Rust code) instead of aborting
extraction. -/
theorem C1_bounds_violation :
    (splitWs c1raw).length = 16 ∧
      (Process.refresh (some c1raw) (buildProcess [] 1 0 0 ProcessStatus.Run)).toOption
        = none :=
  ⟨by decide, by decide⟩

theorem exceptSeq_ok {α β : Type} (a : α) (f : α → Except Unit β) :
    ((Except.ok a : Except Unit α) >>= f) = f a := rfl

theorem exceptSeq_error {α β : Type} (u : Unit) (f : α → Except Unit β) :
    ((Except.error u : Except Unit α) >>= f) = Except.error u := rfl

theorem stepProc_ne {reads : Nat → Option (List Nat)} {tbl t : Nat → Option Process}
    {e : ProvProc} {q : Nat} (h : stepProc reads tbl e = Except.ok t) (hq : q ≠ e.pid) :
    t q = tbl q := by
  unfold stepProc at h
  by_cases ht : isTerminal e.status = true
  · rw [if_pos ht] at h
    injection h with h
    subst h
    simp [hq]
  · rw [if_neg ht] at h
    cases hr : Process.refresh (reads e.pid)
        (buildProcess e.name e.pid e.run_time e.ram e.status) with
    | error u => rw [hr] at h; exact Except.noConfusion h
    | ok pr =>
      rw [hr] at h
      injection h with h
      subst h
      simp [hq]

theorem stepProc_eq {reads : Nat → Option (List Nat)} {tbl t : Nat → Option Process}
    {e : ProvProc} (h : stepProc reads tbl e = Except.ok t) :
    ((t e.pid).isSome = true ↔ isTerminal e.status = false) := by
  unfold stepProc at h
  by_cases ht : isTerminal e.status = true
  · rw [if_pos ht] at h
    injection h with h
    subst h
    simp [ht]
  · rw [if_neg ht] at h
    rw [Bool.not_eq_true] at ht
    cases hr : Process.refresh (reads e.pid)
        (buildProcess e.name e.pid e.run_time e.ram e.status) with
    | error u => rw [hr] at h; exact Except.noConfusion h
    | ok pr =>
      rw [hr] at h
      injection h with h
      subst h
      simp [ht]

theorem foldlM_stepProc_ne {reads : Nat → Option (List Nat)} :
    ∀ (es : List ProvProc) (init res : Nat → Option Process) (q : Nat),
      List.foldlM (stepProc reads) init es = Except.ok res →
      (∀ e ∈ es, e.pid ≠ q) → res q = init q := by
  intro es
  induction es with
  | nil =>
    intro init res q h _
    simp only [List.foldlM_nil] at h
    injection h with h
    rw [h]
  | cons x xs ih =>
    intro init res q h hne
    rw [List.foldlM_cons] at h
    cases hs : stepProc reads init x with
    | error u => rw [hs, exceptSeq_error] at h; exact Except.noConfusion h
    | ok t =>
      rw [hs, exceptSeq_ok] at h
      have hrec := ih t res q h (fun e he => hne e (List.mem_cons_of_mem _ he))
      rw [hrec, stepProc_ne hs (hne x (List.mem_cons_self _ _)).symm]

theorem foldlM_stepProc_mem {reads : Nat → Option (List Nat)} :
    ∀ (es : List ProvProc) (init res : Nat → Option Process) (q : Nat),
      (es.map (fun e => e.pid)).Nodup →
      List.foldlM (stepProc reads) init es = Except.ok res →
      q ∈ es.map (fun e => e.pid) →
      ((res q).isSome = true ↔ ∃ e ∈ es, e.pid = q ∧ isTerminal e.status = false) := by
  intro es
  induction es with
  | nil => intro _ _ q _ _ hq; cases hq
  | cons x xs ih =>
    intro init res q hnd h hq
    rw [List.foldlM_cons] at h
    cases hs : stepProc reads init x with
    | error u => rw [hs, exceptSeq_error] at h; exact Except.noConfusion h
    | ok t =>
      rw [hs, exceptSeq_ok] at h
      rw [List.map_cons, List.nodup_cons] at hnd
      obtain ⟨hx, hnd'⟩ := hnd
      by_cases hqx : q = x.pid
      · subst hqx
        have hres : res x.pid = t x.pid := by
          apply foldlM_stepProc_ne xs t res x.pid h
          intro e he heq
          exact hx (heq ▸ List.mem_map_of_mem (fun e => e.pid) he)
        rw [hres]
        have hiff := stepProc_eq hs
        constructor
        · intro hsome
          exact ⟨x, List.mem_cons_self _ _, rfl, hiff.mp hsome⟩
        · rintro ⟨e, he, hpid, hterm⟩
          rcases List.mem_cons.mp he with rfl | he
          · exact hiff.mpr hterm
          · exact absurd (hpid ▸ List.mem_map_of_mem (fun e => e.pid) he) hx
      · have hq' : q ∈ xs.map (fun e => e.pid) := by
          rcases List.mem_cons.mp hq with h' | h'
          · exact absurd h' hqx
          · exact h'
        rw [ih t res q hnd' h hq']
        constructor
        · rintro ⟨e, he, hpid, hterm⟩
          exact ⟨e, List.mem_cons_of_mem _ he, hpid, hterm⟩
        · rintro ⟨e, he, hpid, hterm⟩
          rcases List.mem_cons.mp he with rfl | he
          · exact absurd hpid.symm hqx
          · exact ⟨e, he, hpid, hterm⟩

/-- Claim C2: after a successful `refresh_processes`, a pid is a key of the
table iff the provider snapshot lists it with a non-terminal (not Dead, not
Zombie) status — the live set minus terminal-status pids; pids absent from
the live set were dropped by the `retain` set-difference. -/
theorem C2_keyset (snapshot : List ProvProc) (reads : Nat → Option (List Nat))
    (tbl res : Nat → Option Process) (q : Nat)
    (hnd : (snapshot.map (fun e => e.pid)).Nodup)
    (h : refresh_processes snapshot reads tbl = Except.ok res) :
    ((res q).isSome = true ↔
      ∃ e ∈ snapshot, e.pid = q ∧ isTerminal e.status = false) := by
  unfold refresh_processes at h
  by_cases hq : q ∈ snapshot.map (fun e => e.pid)
  · exact foldlM_stepProc_mem snapshot _ res q hnd h hq
  · have hres : res q = (if q ∈ snapshot.map (fun e => e.pid) then tbl q else none) :=
      foldlM_stepProc_ne snapshot _ res q h
        (fun e he heq => hq (heq ▸ List.mem_map_of_mem (fun e => e.pid) he))
    rw [hres, if_neg hq]
    constructor
    · intro hsome
      simp at hsome
    · rintro ⟨e, he, hpid, _⟩
      exact absurd (hpid ▸ List.mem_map_of_mem (fun e => e.pid) he) hq

/-- A provider snapshot with pids 1 (running), 2 (zombie) and 3 (sleeping). -/
def c2snap : List ProvProc :=
  [⟨1, [97], 0, 0, ProcessStatus.Run⟩, ⟨2, [98], 0, 0, ProcessStatus.Zombie⟩,
    ⟨3, [99], 0, 0, ProcessStatus.Sleep⟩]

def c2reads : Nat → Option (List Nat) := fun _ => none

def c2tbl : Nat → Option Process := fun _ => none

/-- The table produced by refreshing the empty table against `c2snap`. -/
def c2res : Nat → Option Process :=
  match refresh_processes c2snap c2reads c2tbl with
  | Except.ok t => t
  | Except.error _ => fun _ => none

/-- Witness for C2: the zombie pid 2 is not a key afterwards, pids 1 and 3
are. -/
theorem C2_keyset_witness :
    ((c2res 2).isSome = true ↔
        ∃ e ∈ c2snap, e.pid = 2 ∧ isTerminal e.status = false) ∧
      (c2res 2).isSome = false ∧ (c2res 1).isSome = true ∧ (c2res 3).isSome = true ∧
      (c2res 0).isSome = false :=
  ⟨C2_keyset c2snap c2reads c2tbl c2res 2 (by decide) rfl, by decide, by decide,
    by decide, by decide⟩

/-- Accounting text of 40 tokens, every token "7". -/
def c3raw : List Nat := mkRaw (List.replicate 40 [55])

/-- A table record for pid 1 with all scheduling fields long resolved to 5
(from an earlier cycle whose tokens were all "5"). -/
def c3p0 : Process :=
  ⟨[120], 1, 0, 0, some 5, some ProcessStatus.Run, some 5, some 5,
    splitWs (mkRaw (List.replicate 40 [53]))⟩

def c3tbl : Nat → Option Process := fun q => if q = 1 then some c3p0 else none

/-- The next cycle still reports pid 1 alive (run_time 3, ram 4). -/
def c3snap : List ProvProc := [⟨1, [120], 3, 4, ProcessStatus.Run⟩]

def c3reads : Nat → Option (List Nat) := fun _ => some c3raw

def c3res : Nat → Option Process :=
  match refresh_processes c3snap c3reads c3tbl with
  | Except.ok t => t
  | Except.error _ => fun _ => none

/-- Claim C3, violated by the code: pid 1 enters the cycle with nice
resolved to 5, the cycle's accounting text reads "7" in the nice column,
and after `refresh_processes` the table's entry for pid 1 has nice 7 — the
loop rebuilt the record from scratch instead of updating it in place, so
the resolved value was not preserved. -/
theorem C3_sticky_violated :
    (c3tbl 1).map Process.nice = some (some 5) ∧
      refresh_processes c3snap c3reads c3tbl = Except.ok c3res ∧
      (c3res 1).map Process.nice = some (some 7) ∧
      (c3res 1).map Process.run_time = some 3 :=
  ⟨by decide, rfl, by decide, by decide⟩
